import Mathlib

/-!
Verification of the NIST-style password / passphrase generator (`npg.py`).

The Python source is shallowly embedded as follows.

* Files are embedded as the list of their lines (`List String`), without
  line terminators for the wordlist (Python `str.strip` would remove them
  anyway) and with possible terminators for the blocklist (the code only
  strips `\r`/`\n` there).
* The cryptographically secure random source (`secrets.choice`) is embedded
  as an infinite tape of natural numbers `tape : Nat → Nat`; the i-th draw
  from a sequence `l` selects index `tape i % l.length`.  Every element is
  reachable and an error path that never consults the tape is exactly an
  error path that performs no random draw.
* Python `float` results of `math.log2` are embedded as real numbers
  (`Real.logb 2`).
* `raise ValueError` / `raise SystemExit` become `Except` errors.
* Python `str.strip` / `str.startswith("#")` / `str.capitalize` /
  `str.rstrip("\r\n")` are modelled character-wise over `String.data`
  (`str.capitalize` uppercases the first character and lowercases the rest).
-/

set_option maxRecDepth 40000

/-- Errors raised (`raise ValueError`) by the two generators. -/
inductive NpgError where
  | alphabetTooSmall
  | vocabularyTooSmall
deriving DecidableEq

/-- Errors raised (`raise SystemExit`) by the `main` pipeline. -/
inductive MainError where
  | lengthTooShort
  | tooFewWords
  | missingWordlist
  | entropyBelowFloor
  | blocklisted
  | gen (e : NpgError)

/-- `npg.py` line 23: `bits_of_entropy(space_size, length)`.
`H = log2(space_size^length) = length * log2(space_size)`;
returns `0.0` when `space_size <= 1 or length <= 0`. -/
noncomputable def bits_of_entropy (space_size length : Int) : ℝ :=
  if space_size ≤ 1 ∨ length ≤ 0 then 0
  else (length : ℝ) * Real.logb 2 (space_size : ℝ)

/-- Python `str.strip()` (restricted to the ASCII whitespace that
`Char.isWhitespace` knows): drop leading and trailing whitespace. -/
def pyStrip (s : String) : String :=
  String.mk (((s.data.dropWhile Char.isWhitespace).reverse.dropWhile
    Char.isWhitespace).reverse)

/-- Python `str.startswith("#")`: the first character is `'#'`. -/
def startsWithHash (s : String) : Bool :=
  s.data.head? == some '#'

/-- Python `str.rstrip("\r\n")`: drop trailing carriage returns and
newlines. -/
def rstrip_crlf (s : String) : String :=
  String.mk ((s.data.reverse.dropWhile (fun c => c == '\r' || c == '\n')).reverse)

/-- `npg.py` lines 30-40: `load_blocklist`.  One secret per line, the line
terminator stripped, empty lines skipped.  The Python `set` is embedded as
the list of its members. -/
def load_blocklist (lines : List String) : List String :=
  lines.filterMap (fun line =>
    let s := rstrip_crlf line
    if s != "" then some s else none)

/-- `npg.py` lines 109-111: `check_blocklist(secret, blocklist)` is
`secret in blocklist`. -/
def check_blocklist (secret : String) (blocklist : List String) : Bool :=
  blocklist.contains secret

/-- `npg.py` lines 87-92 (inside `generate_passphrase`): strip each line of
the wordlist file and keep it when it is non-empty and does not start with
`'#'`. -/
def load_wordlist (lines : List String) : List String :=
  lines.filterMap (fun line =>
    let w := pyStrip line
    if (w != "") && !(startsWithHash w) then some w else none)

/-- The wordlist filter as claim C2 words it: a line is excluded exactly
when it is empty after trimming or when it (the raw line) begins with `'#'`;
every kept line enters verbatim. -/
def load_wordlist_claim (lines : List String) : List String :=
  lines.filter (fun line => !(pyStrip line == "") && !(startsWithHash line))

/-- One call of `secrets.choice` on a list of strings, fed by the raw
random value `r`; on a non-empty list every index is reachable. -/
def choiceD (l : List String) (r : Nat) : String :=
  l.getD (r % l.length) ""

/-- One call of `secrets.choice` on the characters of a string. -/
def choiceChar (s : String) (r : Nat) : Char :=
  s.data.getD (r % s.data.length) default

/-- Python `str.capitalize()`: first character uppercased, all remaining
characters lowercased. -/
def capitalize (w : String) : String :=
  match w.data with
  | [] => ""
  | c :: cs => String.mk (c.toUpper :: cs.map Char.toLower)

/-- The capitalisation transform as claim C1 words it: first character
uppercased, the rest of the word left unchanged. -/
def capitalize_first_only (w : String) : String :=
  match w.data with
  | [] => ""
  | c :: cs => String.mk (c.toUpper :: cs)

/-- `npg.py` line 101: `[secrets.choice(words) for _ in range(num_words)]`
(`range` of a non-positive Python int is empty). -/
def chosen_words (words : List String) (num_words : Int) (tape : Nat → Nat) :
    List String :=
  (List.range num_words.toNat).map (fun i => choiceD words (tape i))

/-- Python `separator.join(chosen)`. -/
def strJoin (sep : String) : List String → String
  | [] => ""
  | [w] => w
  | w :: ws => w ++ (sep ++ strJoin sep ws)

/-- `npg.py` lines 76-106, `generate_passphrase`, up to the entropy
computation: load the wordlist, enforce the 2048-word floor, draw
`num_words` words, optionally capitalise, join.  Returns the phrase and the
vocabulary size. -/
def generate_passphrase_core (num_words : Int) (lines : List String)
    (separator : String) (caps : Bool) (tape : Nat → Nat) :
    Except NpgError (String × Nat) :=
  let words := load_wordlist lines
  let vocab := words.length
  if vocab < 2048 then .error .vocabularyTooSmall
  else
    let chosen := chosen_words words num_words tape
    let chosen := if caps then chosen.map capitalize else chosen
    .ok (strJoin separator chosen, vocab)

/-- `npg.py` lines 76-106: `generate_passphrase`, returning
`(phrase, entropy_bits, vocab_size)`. -/
noncomputable def generate_passphrase (num_words : Int) (lines : List String)
    (separator : String) (caps : Bool) (tape : Nat → Nat) :
    Except NpgError (String × ℝ × Nat) :=
  (generate_passphrase_core num_words lines separator caps tape).map
    (fun r => (r.1, bits_of_entropy (r.2 : Int) num_words, r.2))

/-- Python `string.ascii_letters` (lowercase then uppercase). -/
def ascii_letters : String :=
  "abcdefghijklmnopqrstuvwxyzABCDEFGHIJKLMNOPQRSTUVWXYZ"

/-- Python `string.digits`. -/
def digits : String := "0123456789"

/-- Python `string.punctuation`. -/
def punctuationChars : String := "!\"#$%&\x27()*+,-./:;<=>?@[\\]^_`\x7b|\x7d~"

/-- `npg.py` line 63: the fixed ambiguous-glyph set. -/
def ambiguousChars : String := "Il1O0|`\x27\";:.,\x7b\x7d[]()<>^~"

/-- First-occurrence-order deduplication, the model of
`dict.fromkeys` on a string (line 67); `seen` accumulates the characters
already emitted. -/
def dedupFirstAux (seen : List Char) : List Char → List Char
  | [] => []
  | c :: rest =>
    if seen.contains c then dedupFirstAux seen rest
    else c :: dedupFirstAux (c :: seen) rest

/-- `"".join(dict.fromkeys(alphabet))`: drop duplicate characters, keeping
first occurrences in order. -/
def dedupFirst (l : List Char) : List Char :=
  dedupFirstAux [] l

/-- `npg.py` lines 57-67 (inside `generate_password`): the alphabet
construction — letters, digits, punctuation, optional space, optional
removal of ambiguous glyphs, then deduplication. -/
def build_alphabet (allow_space exclude_ambiguous : Bool) : String :=
  let a1 := ascii_letters ++ digits ++ punctuationChars
  let a2 := if allow_space then a1 ++ " " else a1
  let a3 :=
    if exclude_ambiguous then
      String.mk (a2.data.filter (fun ch => !(ambiguousChars.data.contains ch)))
    else a2
  String.mk (dedupFirst a3.data)

/-- `npg.py` lines 43-45: `pick_chars(alphabet, length)` draws `length`
characters with `secrets.choice`. -/
def pick_chars (alphabet : String) (length : Int) (tape : Nat → Nat) : String :=
  String.mk ((List.range length.toNat).map (fun i => choiceChar alphabet (tape i)))

/-- `npg.py` lines 48-73, `generate_password`, up to the entropy
computation: build the alphabet, enforce the size-10 floor, draw the
characters.  Returns the secret and the alphabet used. -/
def generate_password_core (length : Int) (allow_space exclude_ambiguous : Bool)
    (tape : Nat → Nat) : Except NpgError (String × String) :=
  let alphabet := build_alphabet allow_space exclude_ambiguous
  if alphabet.data.length < 10 then .error .alphabetTooSmall
  else .ok (pick_chars alphabet length tape, alphabet)

/-- `npg.py` lines 48-73: `generate_password`, returning
`(secret, entropy_bits, alphabet_used)`. -/
noncomputable def generate_password (length : Int)
    (allow_space exclude_ambiguous : Bool) (tape : Nat → Nat) :
    Except NpgError (String × ℝ × String) :=
  (generate_password_core length allow_space exclude_ambiguous tape).map
    (fun r => (r.1, bits_of_entropy (r.2.data.length : Int) length, r.2))

/-- `npg.py` lines 191-235, the password branch of `main`: length floor,
generation, entropy floor, optional blocklist screen. -/
noncomputable def run_password_mode (length : Int) (no_space no_ambiguous : Bool)
    (min_entropy : ℝ) (blocklist_lines : List String) (tape : Nat → Nat) :
    Except MainError String :=
  if length < 8 then .error .lengthTooShort
  else
    match generate_password length (!no_space) no_ambiguous tape with
    | .error e => .error (.gen e)
    | .ok (secret, entropy, _alphabet) =>
      if entropy < min_entropy then .error .entropyBelowFloor
      else
        let bl := load_blocklist blocklist_lines
        if bl ≠ [] ∧ check_blocklist secret bl then .error .blocklisted
        else .ok secret

/-- Number of (possibly overlapping) occurrences of `sep` in `s`: the
number of positions of `s` at which `sep` is a prefix of the remaining
suffix. -/
def countOccs (sep : List Char) : List Char → Nat
  | [] => 0
  | c :: rest => (if sep <+: (c :: rest) then 1 else 0) + countOccs sep rest

/-- The character-list analogue of `strJoin`. -/
def listJoin (sep : List Char) : List (List Char) → List Char
  | [] => []
  | [w] => w
  | w :: ws => w ++ (sep ++ listJoin sep ws)

-- ---------------------------------------------------------------------
-- Helper lemmas
-- ---------------------------------------------------------------------

theorem string_ne_empty_iff (s : String) : s ≠ "" ↔ s.data ≠ [] := by
  constructor
  · intro h hd
    exact h (String.ext hd)
  · intro h hd
    exact h (by rw [hd])

theorem data_strJoin (sep : String) (ws : List String) :
    (strJoin sep ws).data = listJoin sep.data (ws.map String.data) := by
  induction ws with
  | nil => rfl
  | cons w ws ih =>
    cases ws with
    | nil => rfl
    | cons w2 rest =>
      show (w ++ (sep ++ strJoin sep (w2 :: rest))).data = _
      rw [String.data_append, String.data_append, ih]
      rfl

-- ---------------------------------------------------------------------
-- C3: the entropy formula
-- ---------------------------------------------------------------------

/-- C3. For every space size `s` and draw count `n`, `bits_of_entropy s n`
is `0.0` when `s ≤ 1` or `n ≤ 0`, and is `n * log2 s` when `s > 1` and
`n > 0`. -/
theorem bits_of_entropy_spec (s n : Int) :
    (s ≤ 1 ∨ n ≤ 0 → bits_of_entropy s n = 0) ∧
    (1 < s → 0 < n → bits_of_entropy s n = (n : ℝ) * Real.logb 2 (s : ℝ)) := by
  constructor
  · intro h
    simp [bits_of_entropy, h]
  · intro h1 h2
    rw [bits_of_entropy, if_neg]
    push_neg
    exact ⟨h1, h2⟩

/-- C3, witness: `bits_of_entropy` at `(1, 5)`, `(2048, 0)` and
`(2048, 6)`. -/
theorem bits_of_entropy_spec_witness :
    bits_of_entropy 1 5 = 0 ∧ bits_of_entropy 2048 0 = 0 ∧
    bits_of_entropy 2048 6 = (6 : ℝ) * Real.logb 2 (2048 : ℝ) := by
  refine ⟨(bits_of_entropy_spec 1 5).1 (Or.inl le_rfl),
    (bits_of_entropy_spec 2048 0).1 (Or.inr le_rfl), ?_⟩
  have h := (bits_of_entropy_spec 2048 6).2 (by norm_num) (by norm_num)
  simpa using h

-- ---------------------------------------------------------------------
-- C6: blocklist exact matching
-- ---------------------------------------------------------------------

/-- C6. `check_blocklist secret blocklist` is true iff the secret is
exactly (case-sensitively, character for character) equal to some entry of
the blocklist; no substring or case-folded matching. -/
theorem check_blocklist_iff (secret : String) (blocklist : List String) :
    check_blocklist secret blocklist = true ↔ ∃ e ∈ blocklist, e = secret := by
  simp [check_blocklist, List.contains_iff_exists_mem_beq, eq_comm]

/-- C6, witness: a concrete membership and a concrete near-miss (case
difference). -/
theorem check_blocklist_iff_witness :
    (check_blocklist "hunter2" ["hunter2", "qwerty"] = true ↔
      ∃ e ∈ ["hunter2", "qwerty"], e = "hunter2") ∧
    (check_blocklist "Hunter2" ["hunter2", "qwerty"] = true ↔
      ∃ e ∈ ["hunter2", "qwerty"], e = "Hunter2") := by
  exact ⟨check_blocklist_iff "hunter2" ["hunter2", "qwerty"],
    check_blocklist_iff "Hunter2" ["hunter2", "qwerty"]⟩

-- ---------------------------------------------------------------------
-- C2: the wordlist loading step
-- ---------------------------------------------------------------------

/-- C2, counterexample.  The claim says kept lines enter verbatim; the code
keeps the *stripped* line: on the single-line file `" foo "` the code
produces `"foo"`, not `" foo "`.  (The code also excludes `"  #c"`, whose
trimmed form starts with `'#'`, though the raw line does not.) -/
theorem load_wordlist_verbatim_cex :
    load_wordlist [" foo ", "  #c"] = ["foo"] ∧
    load_wordlist_claim [" foo ", "  #c"] = [" foo ", "  #c"] ∧
    (["foo"] : List String) ≠ [" foo ", "  #c"] := by
  refine ⟨by decide, by decide, by decide⟩

/-- C2, amended.  The wordlist loading step maps every line to its trimmed
form and keeps exactly those whose trimmed form is non-empty and does not
begin with `'#'`; duplicates are allowed and order is preserved (the result
is literally a `map` followd by a `filter`). -/
theorem load_wordlist_trims_tokens (lines : List String) :
    load_wordlist lines =
      (lines.map pyStrip).filter
        (fun w => (w != "") && !(startsWithHash w)) := by
  induction lines with
  | nil => rfl
  | cons l ls ih =>
    rw [load_wordlist, List.filterMap_cons]
    rw [load_wordlist] at ih
    rw [List.map_cons, List.filter_cons]
    by_cases h : ((pyStrip l != "") && !(startsWithHash (pyStrip l))) = true
    · simp only [h, if_pos, ih]
    · simp only [h, if_neg, Bool.false_eq_true, not_false_iff, ih]

/-- C2, witness: the amended loader on a concrete file with comments, blank
lines, padding and a duplicate. -/
theorem load_wordlist_trims_tokens_witness :
    load_wordlist ["alpha", "# comment", "", "  beta ", "alpha"] =
      (["alpha", "# comment", "", "  beta ", "alpha"].map pyStrip).filter
        (fun w => (w != "") && !(startsWithHash w)) :=
  load_wordlist_trims_tokens ["alpha", "# comment", "", "  beta ", "alpha"]

-- ---------------------------------------------------------------------
-- Wordlist evaluation helpers (kept symbolic: the 2048-line files are too
-- large for kernel evaluation in one go)
-- ---------------------------------------------------------------------

theorem load_wordlist_keep_cons (l : String) (ls : List String)
    (h : ((pyStrip l != "") && !(startsWithHash (pyStrip l))) = true) :
    load_wordlist (l :: ls) = pyStrip l :: load_wordlist ls := by
  rw [load_wordlist, List.filterMap_cons, load_wordlist]
  simp only [h, if_pos]

theorem load_wordlist_replicate (w : String) (hs : pyStrip w = w)
    (h : ((w != "") && !(startsWithHash w)) = true) (n : Nat) :
    load_wordlist (List.replicate n w) = List.replicate n w := by
  induction n with
  | zero => rfl
  | succ n ih =>
    rw [List.replicate_succ, load_wordlist_keep_cons w _ (by rw [hs]; exact h),
      ih, hs]

/-- A 2048-line wordlist whose first word has an uppercase letter after the
first character. -/
def linesA : List String := "aB" :: List.replicate 2047 "w"

/-- A 2048-line wordlist whose first word is the single letter `a`. -/
def linesB : List String := "a" :: List.replicate 2047 "w"

theorem load_linesA : load_wordlist linesA = "aB" :: List.replicate 2047 "w" := by
  rw [linesA, load_wordlist_keep_cons _ _ (by decide)]
  rw [load_wordlist_replicate "w" (by decide) (by decide)]
  rw [show pyStrip "aB" = "aB" from by decide]

theorem load_linesA_length : (load_wordlist linesA).length = 2048 := by
  rw [load_linesA]
  simp

theorem load_linesB : load_wordlist linesB = "a" :: List.replicate 2047 "w" := by
  rw [linesB, load_wordlist_keep_cons _ _ (by decide)]
  rw [load_wordlist_replicate "w" (by decide) (by decide)]
  rw [show pyStrip "a" = "a" from by decide]

theorem load_linesB_length : (load_wordlist linesB).length = 2048 := by
  rw [load_linesB]
  simp

theorem generate_passphrase_core_ok (n : Int) (lines : List String)
    (sep : String) (caps : Bool) (tape : Nat → Nat)
    (h : ¬ (load_wordlist lines).length < 2048) :
    generate_passphrase_core n lines sep caps tape =
      .ok (strJoin sep
          (if caps then (chosen_words (load_wordlist lines) n tape).map capitalize
           else chosen_words (load_wordlist lines) n tape),
        (load_wordlist lines).length) := by
  simp only [generate_passphrase_core, h, if_neg, if_false, not_false_iff]

theorem gp_small_vocab (lines : List String)
    (h : (load_wordlist lines).length < 2048) (n : Int) (sep : String)
    (caps : Bool) (tape : Nat → Nat) :
    generate_passphrase n lines sep caps tape = .error .vocabularyTooSmall := by
  rw [generate_passphrase]
  rw [show generate_passphrase_core n lines sep caps tape =
      .error .vocabularyTooSmall by
    simp only [generate_passphrase_core, h, if_pos]]
  rfl

-- ---------------------------------------------------------------------
-- C5: the 2048-word vocabulary floor
-- ---------------------------------------------------------------------

/-- C5. Whenever the loaded wordlist has fewer than 2048 tokens,
`generate_passphrase` fails with the wordlist-too-small error, for every
word count, separator, capitalisation option and random tape. -/
theorem generate_passphrase_vocab_floor (lines : List String)
    (h : (load_wordlist lines).length < 2048) :
    ∀ (n : Int) (sep : String) (caps : Bool) (tape : Nat → Nat),
      generate_passphrase n lines sep caps tape = .error .vocabularyTooSmall :=
  fun n sep caps tape => gp_small_vocab lines h n sep caps tape

/-- C5, witness: a vocabulary of exactly 2047 words is refused. -/
theorem generate_passphrase_vocab_floor_witness :
    (load_wordlist (List.replicate 2047 "w")).length < 2048 ∧
    generate_passphrase 6 (List.replicate 2047 "w") " " false (fun _ => 0) =
      .error .vocabularyTooSmall := by
  have h : (load_wordlist (List.replicate 2047 "w")).length < 2048 := by
    rw [load_wordlist_replicate "w" (by decide) (by decide)]
    simp
  exact ⟨h, generate_passphrase_vocab_floor (List.replicate 2047 "w") h 6 " "
    false (fun _ => 0)⟩

-- ---------------------------------------------------------------------
-- C9: the error is raised before any random draw
-- ---------------------------------------------------------------------

/-- C9. When the loaded wordlist has fewer than 2048 tokens the outcome of
`generate_passphrase` is the same for every random tape — in particular no
random draw can influence it, and it is the vocabulary error. -/
theorem generate_passphrase_error_before_draw (lines : List String)
    (h : (load_wordlist lines).length < 2048) (n : Int) (sep : String)
    (caps : Bool) (t1 t2 : Nat → Nat) :
    generate_passphrase n lines sep caps t1 =
      generate_passphrase n lines sep caps t2 ∧
    generate_passphrase n lines sep caps t1 = .error .vocabularyTooSmall := by
  rw [gp_small_vocab lines h n sep caps t1, gp_small_vocab lines h n sep caps t2]
  exact ⟨rfl, rfl⟩

/-- C9, witness: two very different tapes, same refusal. -/
theorem generate_passphrase_error_before_draw_witness :
    generate_passphrase 6 ["alpha", "beta"] "-" true (fun _ => 0) =
      generate_passphrase 6 ["alpha", "beta"] "-" true (fun i => 1000 * i + 7) ∧
    generate_passphrase 6 ["alpha", "beta"] "-" true (fun _ => 0) =
      .error .vocabularyTooSmall :=
  generate_passphrase_error_before_draw ["alpha", "beta"] (by decide) 6 "-" true
    (fun _ => 0) (fun i => 1000 * i + 7)

-- ---------------------------------------------------------------------
-- C1: what `capitalize` does to the rest of the word
-- ---------------------------------------------------------------------

theorem choiceD_cons_zero (w : String) (rest : List String) :
    choiceD (w :: rest) 0 = w := by
  simp [choiceD]

theorem chosen_words_const_zero_three (words : List String) :
    chosen_words words 3 (fun _ => 0) =
      [choiceD words 0, choiceD words 0, choiceD words 0] := rfl

theorem not_small_linesA : ¬ (load_wordlist linesA).length < 2048 := by
  rw [load_linesA_length]
  decide

/-- C1, counterexample.  Python `str.capitalize` also lowercases the tail
of the word: drawing the word `"aB"` three times with `capitalize` on
produces `"Ab Ab Ab"`, while the claimed transform (first character
uppercased, rest unchanged) would give `"AB AB AB"`. -/
theorem capitalize_rest_unchanged_cex :
    generate_passphrase 3 linesA " " true (fun _ => 0) =
      .ok ("Ab Ab Ab", bits_of_entropy 2048 3, 2048) ∧
    capitalize_first_only "aB" = "AB" ∧
    strJoin " " (["aB", "aB", "aB"].map capitalize_first_only) = "AB AB AB" ∧
    ("Ab Ab Ab" : String) ≠ "AB AB AB" := by
  refine ⟨?_, by decide, by decide, by decide⟩
  rw [generate_passphrase,
    generate_passphrase_core_ok 3 linesA " " true (fun _ => 0) not_small_linesA,
    load_linesA_length, load_linesA, chosen_words_const_zero_three,
    choiceD_cons_zero]
  simp only [if_true, Except.map]
  rw [show (["aB", "aB", "aB"].map capitalize) = ["Ab", "Ab", "Ab"] from by decide]
  rw [show strJoin " " ["Ab", "Ab", "Ab"] = "Ab Ab Ab" from by decide]
  norm_num

/-- C1, amended.  With `capitalize` on, each chosen word is transformed by
uppercasing its first character and lowercasing all remaining characters
(Python `str.capitalize` semantics), not by leaving the tail unchanged. -/
theorem generate_passphrase_capitalize_lowers_rest (n : Int)
    (lines : List String) (sep : String) (tape : Nat → Nat)
    (h : 2048 ≤ (load_wordlist lines).length) :
    generate_passphrase n lines sep true tape =
      .ok (strJoin sep ((chosen_words (load_wordlist lines) n tape).map
          (fun w => String.mk (match w.data with
            | [] => []
            | c :: cs => c.toUpper :: cs.map Char.toLower))),
        bits_of_entropy ((load_wordlist lines).length : Int) n,
        (load_wordlist lines).length) := by
  rw [generate_passphrase,
    generate_passphrase_core_ok n lines sep true tape (not_lt.mpr h)]
  simp only [if_true, Except.map]
  have hcap : capitalize = fun w => String.mk (match w.data with
      | [] => []
      | c :: cs => c.toUpper :: cs.map Char.toLower) := by
    funext w
    cases hd : w.data with
    | nil => simp [capitalize, hd]
    | cons c cs => simp [capitalize, hd]
  rw [hcap]

/-- C1, witness: the amended transform on the concrete 2048-word file
`linesA`. -/
theorem generate_passphrase_capitalize_lowers_rest_witness :
    2048 ≤ (load_wordlist linesA).length ∧
    generate_passphrase 3 linesA " " true (fun _ => 0) =
      .ok (strJoin " " ((chosen_words (load_wordlist linesA) 3 (fun _ => 0)).map
          (fun w => String.mk (match w.data with
            | [] => []
            | c :: cs => c.toUpper :: cs.map Char.toLower))),
        bits_of_entropy ((load_wordlist linesA).length : Int) 3,
        (load_wordlist linesA).length) := by
  have h : 2048 ≤ (load_wordlist linesA).length := not_lt.mp not_small_linesA
  exact ⟨h, generate_passphrase_capitalize_lowers_rest 3 linesA " "
    (fun _ => 0) h⟩

-- ---------------------------------------------------------------------
-- Alphabet facts shared by C4, C8 and C10
-- ---------------------------------------------------------------------

theorem alphabet_card_ge (sp ea : Bool) :
    71 ≤ (build_alphabet sp ea).data.length := by
  cases sp <;> cases ea <;> decide

theorem alphabet_not_small (sp ea : Bool) :
    ¬ (build_alphabet sp ea).data.length < 10 := by
  have := alphabet_card_ge sp ea
  omega

theorem generate_password_core_ok (L : Int) (sp ea : Bool) (tape : Nat → Nat) :
    generate_password_core L sp ea tape =
      .ok (pick_chars (build_alphabet sp ea) L tape, build_alphabet sp ea) := by
  simp only [generate_password_core, alphabet_not_small sp ea, if_false]

theorem generate_password_eq (L : Int) (sp ea : Bool) (tape : Nat → Nat) :
    generate_password L sp ea tape =
      .ok (pick_chars (build_alphabet sp ea) L tape,
        bits_of_entropy ((build_alphabet sp ea).data.length : Int) L,
        build_alphabet sp ea) := by
  rw [generate_password, generate_password_core_ok]
  rfl

theorem choiceChar_mem (s : String) (hs : s.data ≠ []) (r : Nat) :
    choiceChar s r ∈ s.data := by
  rw [choiceChar]
  have hlen : 0 < s.data.length := List.length_pos.mpr hs
  have hidx : r % s.data.length < s.data.length := Nat.mod_lt _ hlen
  rw [List.getD_eq_getElem?_getD, List.getElem?_eq_getElem hidx]
  exact List.getElem_mem hidx

-- ---------------------------------------------------------------------
-- C8: the alphabet-too-small branch is unreachable
-- ---------------------------------------------------------------------

/-- C8. For every option combination the deduplicated alphabet has at
least 71 distinct symbols, so the `AlphabetTooSmall` branch (size < 10)
can never fire. -/
theorem build_alphabet_min_size (sp ea : Bool) :
    71 ≤ (build_alphabet sp ea).length ∧
    ∀ (L : Int) (tape : Nat → Nat),
      generate_password L sp ea tape ≠ .error .alphabetTooSmall := by
  refine ⟨alphabet_card_ge sp ea, ?_⟩
  intro L tape hc
  rw [generate_password_eq] at hc
  exact Except.noConfusion hc

/-- C8, witness: the strictest option combination at a concrete call. -/
theorem build_alphabet_min_size_witness :
    71 ≤ (build_alphabet false true).length ∧
    generate_password 20 false true (fun _ => 0) ≠ .error .alphabetTooSmall :=
  ⟨(build_alphabet_min_size false true).1,
    (build_alphabet_min_size false true).2 20 (fun _ => 0)⟩

-- ---------------------------------------------------------------------
-- C4: the password length invariant
-- ---------------------------------------------------------------------

/-- C4. For every length `L ≥ 8` and every option combination,
`generate_password` returns a secret of exactly `L` characters, each of
them a member of the alphabet returned alongside it. -/
theorem generate_password_length_inv (L : Int) (sp ea : Bool)
    (tape : Nat → Nat) (h : 8 ≤ L) :
    ∃ (s : String) (H : ℝ) (a : String),
      generate_password L sp ea tape = .ok (s, H, a) ∧
      (s.length : Int) = L ∧ ∀ c ∈ s.data, c ∈ a.data := by
  refine ⟨pick_chars (build_alphabet sp ea) L tape,
    bits_of_entropy ((build_alphabet sp ea).data.length : Int) L,
    build_alphabet sp ea, generate_password_eq L sp ea tape, ?_, ?_⟩
  · rw [pick_chars]
    simp only [String.length_mk, List.length_map, List.length_range]
    exact Int.toNat_of_nonneg (by omega)
  · intro c hc
    rw [pick_chars] at hc
    simp only [String.mk] at hc
    rcases List.mem_map.mp hc with ⟨i, _, hi⟩
    rw [← hi]
    refine choiceChar_mem _ ?_ _
    intro hnil
    have := alphabet_card_ge sp ea
    rw [hnil] at this
    simp at this

/-- C4, witness: a concrete 8-character password call. -/
theorem generate_password_length_inv_witness :
    ∃ (s : String) (H : ℝ) (a : String),
      generate_password 8 true false (fun _ => 0) = .ok (s, H, a) ∧
      (s.length : Int) = 8 ∧ ∀ c ∈ s.data, c ∈ a.data :=
  generate_password_length_inv 8 true false (fun _ => 0) (by decide)

-- ---------------------------------------------------------------------
-- C10: generate_password does not enforce the length floor itself
-- ---------------------------------------------------------------------

/-- C10. `generate_password` itself never checks `length ≥ 8`: for any
`length ≤ 0` it raises no error and returns the empty secret with entropy
`0.0`; the floor is enforced only by the `main` pipeline, which rejects
with the length error before invoking `generate_password`. -/
theorem generate_password_no_length_floor (L : Int) (sp ea ns na : Bool)
    (me : ℝ) (bl : List String) (tape : Nat → Nat) (h : L ≤ 0) :
    (∃ a : String, generate_password L sp ea tape = .ok ("", 0, a)) ∧
    run_password_mode L ns na me bl tape = .error .lengthTooShort := by
  constructor
  · refine ⟨build_alphabet sp ea, ?_⟩
    rw [generate_password_eq]
    have hpick : pick_chars (build_alphabet sp ea) L tape = "" := by
      rw [pick_chars, Int.toNat_eq_zero.mpr h]
      rfl
    have hent : bits_of_entropy ((build_alphabet sp ea).data.length : Int) L
        = 0 := by
      rw [bits_of_entropy, if_pos (Or.inr h)]
    rw [hpick, hent]
  · rw [run_password_mode, if_pos (by omega : L < 8)]

/-- C10, witness: `length = 0` (and `length = -3` for the pipeline) at
concrete options. -/
theorem generate_password_no_length_floor_witness :
    (∃ a : String, generate_password 0 true false (fun _ => 0) = .ok ("", 0, a)) ∧
    run_password_mode 0 false false 64 [] (fun _ => 0) =
      .error .lengthTooShort :=
  generate_password_no_length_floor 0 true false false false 64 [] (fun _ => 0)
    (by decide)

-- ---------------------------------------------------------------------
-- Separator-counting machinery for C7
-- ---------------------------------------------------------------------

theorem countOccs_append_left (sep w t : List Char) (hsep : sep ≠ [])
    (hw : ∀ c ∈ w, c ∉ sep) :
    countOccs sep (w ++ t) = countOccs sep t := by
  induction w with
  | nil => rfl
  | cons c w ih =>
    have hnp : ¬ sep <+: (c :: (w ++ t)) := by
      intro hp
      cases sep with
      | nil => exact hsep rfl
      | cons s0 s1 =>
        rw [List.cons_prefix_cons] at hp
        exact hw c (List.mem_cons_self c w) (hp.1 ▸ List.mem_cons_self s0 s1)
    rw [List.cons_append, countOccs, if_neg hnp]
    rw [ih (fun c hc => hw c (List.mem_cons_of_mem _ hc))]
    omega

theorem not_prefix_drop (sep t : List Char) (k : Nat) (hk0 : 0 < k)
    (hkl : k < sep.length) (ht : ∀ c ∈ t.head?, c ∉ sep) :
    ¬ sep <+: (List.drop k sep ++ t) := by
  rintro ⟨u, hu⟩
  have hlen := congrArg List.length hu
  simp only [List.length_append, List.length_drop] at hlen
  have ht0 : 0 < t.length := by omega
  obtain ⟨c, t', rfl⟩ : ∃ c t', t = c :: t' := by
    cases t with
    | nil => simp at ht0
    | cons c t' => exact ⟨c, t', rfl⟩
  have hc : c ∉ sep := ht c rfl
  have hi1 : sep.length - k < sep.length := by omega
  have hdlen : (List.drop k sep).length = sep.length - k := List.length_drop k sep
  have e := congrArg (fun l => l[sep.length - k]?) hu
  simp only at e
  rw [List.getElem?_append_left hi1,
    List.getElem?_append_right (by omega : (List.drop k sep).length ≤ sep.length - k)]
    at e
  rw [hdlen, Nat.sub_self] at e
  rw [List.getElem?_eq_getElem hi1] at e
  simp only [List.getElem?_cons_zero] at e
  have heq : sep[sep.length - k] = c := Option.some.inj e
  exact hc (heq ▸ List.getElem_mem hi1)

theorem countOccs_drop_aux (sep t : List Char) (hsep : sep ≠ [])
    (ht : ∀ c ∈ t.head?, c ∉ sep) :
    ∀ (m k : Nat), sep.length - k = m → 0 < k → k ≤ sep.length →
      countOccs sep (List.drop k sep ++ t) = countOccs sep t := by
  intro m
  induction m with
  | zero =>
    intro k hm hk0 hkl
    have : k = sep.length := by omega
    rw [this, List.drop_length, List.nil_append]
  | succ m ih =>
    intro k hm hk0 hkl
    have hklt : k < sep.length := by omega
    have hstep : List.drop k sep = sep[k] :: List.drop (k + 1) sep :=
      List.drop_eq_getElem_cons hklt
    have hnp := not_prefix_drop sep t k hk0 hklt ht
    rw [hstep] at hnp ⊢
    rw [List.cons_append] at hnp ⊢
    rw [countOccs, if_neg hnp]
    rw [ih (k + 1) (by omega) (by omega) (by omega)]
    omega

theorem countOccs_sep_append (sep t : List Char) (hsep : sep ≠ [])
    (ht : ∀ c ∈ t.head?, c ∉ sep) :
    countOccs sep (sep ++ t) = 1 + countOccs sep t := by
  obtain ⟨s0, s1, rfl⟩ : ∃ s0 s1, sep = s0 :: s1 := by
    cases sep with
    | nil => exact absurd rfl hsep
    | cons s0 s1 => exact ⟨s0, s1, rfl⟩
  rw [List.cons_append, countOccs,
    if_pos (show (s0 :: s1) <+: s0 :: (s1 ++ t) from ⟨t, by simp⟩)]
  have hdrop : s1 ++ t = List.drop 1 (s0 :: s1) ++ t := rfl
  rw [hdrop, countOccs_drop_aux (s0 :: s1) t hsep ht ((s0 :: s1).length - 1) 1
    rfl (by omega) (by simp)]

theorem head_ne_sep_of_listJoin (sep : List Char) (w : List Char)
    (ws : List (List Char)) (hw : w ≠ []) (hwc : ∀ c ∈ w, c ∉ sep) :
    ∀ c ∈ (listJoin sep (w :: ws)).head?, c ∉ sep := by
  obtain ⟨c0, w', rfl⟩ : ∃ c0 w', w = c0 :: w' := by
    cases w with
    | nil => exact absurd rfl hw
    | cons c0 w' => exact ⟨c0, w', rfl⟩
  have hhead : (listJoin sep ((c0 :: w') :: ws)).head? = some c0 := by
    cases ws with
    | nil => rfl
    | cons w2 rest => rfl
  rw [hhead]
  intro c hc
  simp only [Option.mem_some_iff] at hc
  subst hc
  exact hwc c0 (List.mem_cons_self c0 w')

theorem countOccs_listJoin (sep : List Char) (hsep : sep ≠ []) :
    ∀ ws : List (List Char),
      (∀ w ∈ ws, w ≠ [] ∧ ∀ c ∈ w, c ∉ sep) →
      countOccs sep (listJoin sep ws) = ws.length - 1 := by
  intro ws
  induction ws with
  | nil => intro _; rfl
  | cons w ws ih =>
    cases ws with
    | nil =>
      intro h
      have hw := h w (List.mem_cons_self w [])
      have := countOccs_append_left sep w [] hsep hw.2
      rw [List.append_nil] at this
      simpa [listJoin] using this
    | cons w2 rest =>
      intro h
      have hw := h w (List.mem_cons_self w _)
      have hw2 := h w2 (List.mem_cons_of_mem _ (List.mem_cons_self w2 _))
      have hjoin : listJoin sep (w :: w2 :: rest) =
          w ++ (sep ++ listJoin sep (w2 :: rest)) := rfl
      rw [hjoin]
      rw [countOccs_append_left sep w _ hsep hw.2]
      rw [countOccs_sep_append sep _ hsep
        (head_ne_sep_of_listJoin sep w2 rest hw2.1 hw2.2)]
      rw [ih (fun v hv => h v (List.mem_cons_of_mem _ hv))]
      simp only [List.length_cons]
      omega

-- ---------------------------------------------------------------------
-- C7: passphrase word count and separator occurrences
-- ---------------------------------------------------------------------

theorem not_small_linesB : ¬ (load_wordlist linesB).length < 2048 := by
  rw [load_linesB_length]
  decide

/-- C7, counterexample.  With vocabulary word `"a"` drawn three times and
separator `"aa"`, the separator is non-empty and does not occur inside any
chosen word, yet the secret is `"aaaaaaa"`, in which `"aa"` occurs at 6
positions (and even non-overlapping counting gives 3), not `N - 1 = 2`. -/
theorem separator_count_cex :
    generate_passphrase 3 linesB "aa" false (fun _ => 0) =
      .ok ("aaaaaaa", bits_of_entropy 2048 3, 2048) ∧
    countOccs "aa".data "a".data = 0 ∧
    ("aa" : String) ≠ "" ∧
    countOccs "aa".data "aaaaaaa".data = 6 ∧
    (6 : Nat) ≠ 3 - 1 := by
  refine ⟨?_, by decide, by decide, by decide, by decide⟩
  rw [generate_passphrase,
    generate_passphrase_core_ok 3 linesB "aa" false (fun _ => 0) not_small_linesB,
    load_linesB_length, load_linesB, chosen_words_const_zero_three,
    choiceD_cons_zero]
  rw [show (if false = true then (["a", "a", "a"].map capitalize)
      else ["a", "a", "a"]) = ["a", "a", "a"] from by decide]
  rw [show strJoin "aa" ["a", "a", "a"] = "aaaaaaa" from by decide]
  simp only [Except.map]
  norm_num

/-- C7, amended.  `generate_passphrase` with word count `N ≥ 3` and a
large-enough vocabulary returns exactly `N` chosen words joined by the
separator; and the separator occurs exactly `N - 1` times in the secret
whenever it is non-empty and *none of its characters* occurs in any chosen
word (the original side condition — the separator merely not occurring
inside any chosen word — is not sufficient, as the counterexample
shows). -/
theorem generate_passphrase_sep_count (n : Int) (lines : List String)
    (sep : String) (caps : Bool) (tape : Nat → Nat)
    (hvocab : 2048 ≤ (load_wordlist lines).length) (hn : 3 ≤ n) :
    ∃ ws : List String, ws.length = n.toNat ∧
      generate_passphrase n lines sep caps tape =
        .ok (strJoin sep ws,
          bits_of_entropy ((load_wordlist lines).length : Int) n,
          (load_wordlist lines).length) ∧
      (sep ≠ "" → (∀ w ∈ ws, w ≠ "" ∧ ∀ c ∈ w.data, c ∉ sep.data) →
        countOccs sep.data (strJoin sep ws).data = n.toNat - 1) := by
  set ws := (if caps then (chosen_words (load_wordlist lines) n tape).map capitalize
    else chosen_words (load_wordlist lines) n tape) with hwdef
  have hlen : ws.length = n.toNat := by
    rw [hwdef]
    cases caps <;> simp [chosen_words]
  refine ⟨ws, hlen, ?_, ?_⟩
  · rw [generate_passphrase,
      generate_passphrase_core_ok n lines sep caps tape (not_lt.mpr hvocab)]
    rw [hwdef]
    rfl
  · intro hsep hws
    have hsepd : sep.data ≠ [] := (string_ne_empty_iff sep).mp hsep
    have hcond : ∀ l ∈ ws.map String.data, l ≠ [] ∧ ∀ c ∈ l, c ∉ sep.data := by
      intro l hl
      rcases List.mem_map.mp hl with ⟨w, hw, rfl⟩
      rcases hws w hw with ⟨h1, h2⟩
      exact ⟨(string_ne_empty_iff w).mp h1, h2⟩
    rw [data_strJoin, countOccs_listJoin sep.data hsepd (ws.map String.data) hcond]
    rw [List.length_map, hlen]

/-- C7, witness: three words from the concrete 2048-word file `linesB`,
separator `"-"`. -/
theorem generate_passphrase_sep_count_witness :
    ∃ ws : List String, ws.length = (3 : Int).toNat ∧
      generate_passphrase 3 linesB "-" false (fun _ => 0) =
        .ok (strJoin "-" ws,
          bits_of_entropy ((load_wordlist linesB).length : Int) 3,
          (load_wordlist linesB).length) ∧
      (("-" : String) ≠ "" →
        (∀ w ∈ ws, w ≠ "" ∧ ∀ c ∈ w.data, c ∉ ("-" : String).data) →
        countOccs ("-" : String).data (strJoin "-" ws).data = (3 : Int).toNat - 1) :=
  generate_passphrase_sep_count 3 linesB "-" false (fun _ => 0)
    (not_lt.mp not_small_linesB) (by decide)
